import Mathlib

/-!
Verification of the dnscrypt-python protocol engine (`dnscrypt.py`).

Byte strings are modelled as `List Nat` (each entry one byte).  The
`StringIO`-based `BinReader` becomes explicit `(buffer, position)` passing;
`struct.unpack` failures (short reads) become `none`; `DnscryptException`
messages are carried in `Except String`.
-/

namespace Dnscrypt

/-- `StringIO.read`: return up to `n` bytes starting at `pos` and the advanced
position (a short read at the end of the buffer is silent). -/
def readBytes (buf : List Nat) (pos n : Nat) : List Nat × Nat :=
  let bs := (buf.drop pos).take n
  (bs, pos + bs.length)

/-- `BinReader.unpack('B')`: one byte; `struct.error` (here `none`) when no
byte remains. -/
def unpackU8 (buf : List Nat) (pos : Nat) : Option (Nat × Nat) :=
  match readBytes buf pos 1 with
  | ([b], p) => some (b, p)
  | _ => none

/-- `BinReader.unpack('!HH')`: two big-endian 16-bit words from four bytes. -/
def unpackHH (buf : List Nat) (pos : Nat) : Option (Nat × Nat × Nat) :=
  match readBytes buf pos 4 with
  | ([a, b, c, d], p) => some (a * 256 + b, c * 256 + d, p)
  | _ => none

/-- Two's-complement reading of a big-endian 32-bit value (`struct`'s `i`). -/
def i32ofBytes (a b c d : Nat) : Int :=
  let u := ((a * 256 + b) * 256 + c) * 256 + d
  if u < 2 ^ 31 then (u : Int) else (u : Int) - 2 ^ 32

/-- `BinReader.unpack('!HHiH')` in `readAnswer`: type, class, ttl, rdlength. -/
def unpackRR (buf : List Nat) (pos : Nat) : Option (Nat × Nat × Int × Nat × Nat) :=
  match readBytes buf pos 10 with
  | ([a, b, c, d, e, f, g, h, i, j], p) =>
      some (a * 256 + b, c * 256 + d, i32ofBytes e f g h, i * 256 + j, p)
  | _ => none

/-- The branch test of `readLabels`: Python's `length & 0b11000000` used as a
truth value, i.e. the byte is routed to the pointer branch iff the bitwise-and
is nonzero (not iff it equals the full mask). -/
def compressionTest (len : Nat) : Bool := len &&& 192 != 0

/-- `DnsPacketConverter.readLabels`, indexed by fuel (the wrapper below always
supplies enough).  Mirrors the source faithfully: in the pointer branch the
14-bit offset is computed (`offsetVal`) but the recursive call proceeds from
the position after the two pointer bytes — the source never seeks to the
offset — and the labels accumulated so far are discarded; afterwards the
cursor is restored to just after the pointer bytes. -/
def readLabelsAux (buf : List Nat) : Nat → Nat → List (List Nat) → Option (List (List Nat) × Nat)
  | 0, _, _ => none
  | fuel + 1, pos, acc =>
    match unpackU8 buf pos with
    | none => none
    | some (len, pos1) =>
      if len = 0 then
        some (acc.reverse, pos1)
      else if compressionTest len then
        match unpackU8 buf pos1 with
        | none => none
        | some (byte2, pos2) =>
          let offsetVal := (len &&& 63) <<< 8 ||| byte2
          let _ := offsetVal
          match readLabelsAux buf fuel pos2 [] with
          | none => none
          | some (result, _) => some (result, pos2)
      else
        let r := readBytes buf pos1 len
        readLabelsAux buf fuel r.2 (r.1 :: acc)

/-- `readLabels` entry point; the fuel bound dominates every possible chain of
loop steps and pointer recursions on `buf`. -/
def readLabels (buf : List Nat) (pos : Nat) : Option (List (List Nat) × Nat) :=
  readLabelsAux buf (2 * buf.length + 2) pos []

/-- `DnsHeader` (six 16-bit fields). -/
structure DnsHeader where
  id : Nat
  bits : Nat
  qdCount : Nat
  anCount : Nat
  nsCount : Nat
  arCount : Nat
deriving DecidableEq

/-- `struct.pack('!H', v)` on its valid range `v < 2 ^ 16`. -/
def u16be (v : Nat) : List Nat := [v / 256, v % 256]

/-- `DnsHeader.toBinary`. -/
def DnsHeader.toBinary (h : DnsHeader) : List Nat :=
  u16be h.id ++ u16be h.bits ++ u16be h.qdCount ++ u16be h.anCount
    ++ u16be h.nsCount ++ u16be h.arCount

/-- `DnsHeader.fromBinary`: twelve bytes, six big-endian words. -/
def headerFromBinary (buf : List Nat) (pos : Nat) : Option (DnsHeader × Nat) :=
  match readBytes buf pos 12 with
  | ([a, b, c, d, e, f, g, h, i, j, k, l], p) =>
      some (⟨a * 256 + b, c * 256 + d, e * 256 + f, g * 256 + h,
             i * 256 + j, k * 256 + l⟩, p)
  | _ => none

/-- `DnsQuestion`. -/
structure DnsQuestion where
  labels : List (List Nat)
  qtype : Nat
  qclass : Nat
deriving DecidableEq

/-- The label-emitting loops in `DnsQuestion.toBinary` and in the type-48
branch of `query`: each label prefixed by its length byte. -/
def encodeLabels : List (List Nat) → List Nat
  | [] => []
  | l :: ls => (l.length :: l) ++ encodeLabels ls

/-- Encoded name: length-prefixed labels followed by the zero terminator. -/
def encodeName (ls : List (List Nat)) : List Nat :=
  encodeLabels ls ++ [0]

/-- `DnsQuestion.toBinary` (the `assert len(label) <= 63` only aborts; on the
asserted range this total function coincides with the source). -/
def DnsQuestion.toBinary (q : DnsQuestion) : List Nat :=
  encodeName q.labels ++ u16be q.qtype ++ u16be q.qclass

/-- `DnsPacket`.  Decoded answers are the raw `rdata` strings, because the
source's `readAnswer` returns `answer.rdata` and `fromBinary` appends that. -/
structure DnsPacket where
  header : DnsHeader
  questions : List DnsQuestion
  answers : List (List Nat)
deriving DecidableEq

/-- The question-section loop of `DnsPacket.toBinary`. -/
def questionsToBinary : List DnsQuestion → List Nat
  | [] => []
  | q :: qs => q.toBinary ++ questionsToBinary qs

/-- `DnsPacket.toBinary`: header then questions; answers are never encoded. -/
def DnsPacket.toBinary (p : DnsPacket) : List Nat :=
  p.header.toBinary ++ questionsToBinary p.questions

/-- `DnsPacket.addQuestion`. -/
def DnsPacket.addQuestion (p : DnsPacket) (q : DnsQuestion) : DnsPacket :=
  ⟨{ p.header with qdCount := p.header.qdCount + 1 }, p.questions ++ [q], p.answers⟩

/-- `DnsHeader.__init__` defaults: id 0x1234, recursion desired, arCount 1. -/
def freshHeader : DnsHeader := ⟨0x1234, 0x0100, 0, 0, 0, 1⟩

/-- `DnsPacketConverter.readQuestion`. -/
def readQuestion (buf : List Nat) (pos : Nat) : Option (DnsQuestion × Nat) :=
  match readLabels buf pos with
  | none => none
  | some (ls, p1) =>
    match unpackHH buf p1 with
    | none => none
    | some (qt, qc, p2) => some (⟨ls, qt, qc⟩, p2)

/-- The `for qi in range(header.qdCount)` loop of `fromBinary`. -/
def readQuestions (buf : List Nat) : Nat → Nat → Option (List DnsQuestion × Nat)
  | 0, pos => some ([], pos)
  | n + 1, pos =>
    match readQuestion buf pos with
    | none => none
    | some (q, p1) =>
      match readQuestions buf n p1 with
      | none => none
      | some (qs, p2) => some (q :: qs, p2)

/-- `DnsPacketConverter.readAnswer`: name, fixed fields, then `rdlength` bytes
of rdata read with the silently-truncating `read`; returns the rdata. -/
def readAnswer (buf : List Nat) (pos : Nat) : Option (List Nat × Nat) :=
  match readLabels buf pos with
  | none => none
  | some (_, p1) =>
    match unpackRR buf p1 with
    | none => none
    | some (_, _, _, rdlength, p2) =>
      let r := readBytes buf p2 rdlength
      some (r.1, r.2)

/-- The `for ai in range(header.anCount)` loop of `fromBinary`. -/
def readAnswers (buf : List Nat) : Nat → Nat → Option (List (List Nat) × Nat)
  | 0, pos => some ([], pos)
  | n + 1, pos =>
    match readAnswer buf pos with
    | none => none
    | some (a, p1) =>
      match readAnswers buf n p1 with
      | none => none
      | some (rest, p2) => some (a :: rest, p2)

/-- `DnsPacketConverter.fromBinary`. -/
def fromBinary (buf : List Nat) : Option DnsPacket :=
  match headerFromBinary buf 0 with
  | none => none
  | some (h, p1) =>
    match readQuestions buf h.qdCount p1 with
    | none => none
    | some (qs, p2) =>
      match readAnswers buf h.anCount p2 with
      | none => none
      | some (ans, _) => some ⟨h, qs, ans⟩

instance {ε α : Type} [DecidableEq ε] [DecidableEq α] : DecidableEq (Except ε α) := fun a b =>
  match a, b with
  | Except.error x, Except.error y =>
    if h : x = y then isTrue (h ▸ rfl) else isFalse (fun hh => h (by cases hh; rfl))
  | Except.error _, Except.ok _ => isFalse (fun hh => Except.noConfusion hh)
  | Except.ok _, Except.error _ => isFalse (fun hh => Except.noConfusion hh)
  | Except.ok x, Except.ok y =>
    if h : x = y then isTrue (h ▸ rfl) else isFalse (fun hh => h (by cases hh; rfl))

/-- Big-endian value of a byte string (what `int(s.encode('hex'), 16)` yields). -/
def bytesBE (bs : List Nat) : Nat := bs.foldl (fun a b => a * 256 + b) 0

/-- `Certificate` fields as extracted in `Certificate.__init__`. -/
structure Certificate where
  bincert : List Nat
  magicQuery : List Nat
  serial : Nat
  certStart : Nat
  certEnd : Nat
deriving DecidableEq

/-- `Certificate.__init__` from a binary blob: magic at bytes 96..104,
serial at 104..108, start at 108..112, end from byte 112 to the end. -/
def Certificate.ofBin (b : List Nat) : Certificate :=
  ⟨b, (b.drop 96).take 8, bytesBE ((b.drop 104).take 4),
    bytesBE ((b.drop 108).take 4), bytesBE (b.drop 112)⟩

/-- `Certificate.expired`: outside the inclusive validity window. -/
def Certificate.expired (c : Certificate) (now : Nat) : Bool :=
  decide (now < c.certStart ∨ c.certEnd < now)

/-- The key of the `max` call in `get_public_key`: `x.serial and not x.expired()`
is `0` when the serial is zero and otherwise the boolean `not expired`. -/
def certKey (c : Certificate) (now : Nat) : Bool :=
  (c.serial != 0) && !(c.expired now)

/-- Numeric value under which Python compares the key (`False == 0 < True`). -/
def boolVal (b : Bool) : Nat := if b then 1 else 0

/-- Python's `max(..., key=...)`: scan left to right, replace the current
maximum only on a strictly greater key, so the first maximal element wins. -/
def pyMaxBy (key : Certificate → Bool) : Certificate → List Certificate → Certificate
  | acc, [] => acc
  | acc, x :: xs => pyMaxBy key (if boolVal (key acc) < boolVal (key x) then x else acc) xs

/-- The `max(certificates, key=lambda x: x.serial and not x.expired())` call. -/
def selectCert (c : Certificate) (cs : List Certificate) (now : Nat) : Certificate :=
  pyMaxBy (fun x => certKey x now) c cs

/-- Lines 228-239 of `get_public_key`: empty-candidates check, `max` selection,
expiry check on the chosen certificate. -/
def selectPhase (certs : List Certificate) (now : Nat) : Except String Certificate :=
  match certs with
  | [] => Except.error "No certificate received."
  | c :: cs =>
    let chosen := selectCert c cs now
    if chosen.expired now then Except.error "Certificate expired."
    else Except.ok chosen

/-- The marker `'DNSC\x00\x01\x00\x00'` scanned by `find_certificates`. -/
def certMarker : List Nat := [68, 78, 83, 67, 0, 1, 0, 0]

/-- `find_certificates` scan body, fuel-indexed (the remaining length always
bounds the number of steps): non-overlapping left-to-right search for the
marker, extracting the 116 bytes after each match (like `re.finditer`). -/
def findCertAux : Nat → List Nat → List (List Nat)
  | 0, _ => []
  | _, [] => []
  | fuel + 1, x :: xs =>
    if certMarker.isPrefixOf (x :: xs) then
      ((x :: xs).drop 8).take 116 :: findCertAux fuel ((x :: xs).drop 8)
    else
      findCertAux fuel xs

/-- `find_certificates`. -/
def findCertificates (resp : List Nat) : List (List Nat) :=
  findCertAux (resp.length + 1) resp

/-- The certificate phase of `get_public_key` applied to a raw response. -/
def getPublicKeySelect (resp : List Nat) (now : Nat) : Except String Certificate :=
  selectPhase ((findCertificates resp).map Certificate.ofBin) now

/-- Lines 314-317 of `query`: any `DnscryptException` raised by
`get_public_key` is caught and re-raised as "Certificate expired.". -/
def queryCertPhase (resp : List Nat) (now : Nat) : Except String Certificate :=
  match getPublicKeySelect resp now with
  | Except.error _ => Except.error "Certificate expired."
  | Except.ok c => Except.ok c

/-- The expected response magic `'r6fnvWj8'`. -/
def responseMagic : List Nat := [114, 54, 102, 110, 118, 87, 106, 56]

/-- Lines 357-367 of `query`: slice the response at fixed offsets, check the
magic, check the client-nonce echo, then open the ciphertext.  The
authenticated open (`decode_message`, an external crypto primitive) is the
parameter `openF`; a `ValueError` from it is "Message decoding error.". -/
def validateResponse (response nonce : List Nat)
    (openF : List Nat → List Nat → Option (List Nat)) : Except String (List Nat) :=
  let respMagic := response.take 8
  let respClientNonce := (response.drop 8).take 12
  let respServerNonce := (response.drop 20).take 12
  let respAnswer := response.drop 32
  if respMagic ≠ responseMagic then
    Except.error "Invalid magic query received."
  else if respClientNonce ≠ nonce then
    Except.error "Invalid nonce received."
  else
    match openF respAnswer (respClientNonce ++ respServerNonce) with
    | none => Except.error "Message decoding error."
    | some m => Except.ok m

/-- One hexadecimal digit character, lowercase, as `"%x"` renders it. -/
def hexDigitChar (n : Nat) : Nat := if n < 10 then 48 + n else 87 + n

/-- Digits of `"%x" % n`: no padding, most significant first, `"0"` for 0.
Fuel-indexed so it evaluates in the kernel; `n + 1` units always suffice. -/
def hexCharsAux : Nat → Nat → List Nat
  | 0, _ => []
  | fuel + 1, n =>
    if n < 16 then [hexDigitChar n]
    else hexCharsAux fuel (n / 16) ++ [hexDigitChar (n % 16)]

/-- The byte string `"%x" % n`. -/
def hexChars (n : Nat) : List Nat := hexCharsAux (n + 1) n

/-- Line 344 of `query`: `"%x" % int(time.time())` concatenated with the four
characters `os.urandom(4).encode('hex')[4:]` (here the parameter `r`). -/
def nonceClientHalf (t : Nat) (r : List Nat) : List Nat := hexChars t ++ r

/-- Line 354 of `query`: the sent datagram
`magic_query ++ pk ++ nonce ++ encoded_message`. -/
def queryDatagram (magic pk : List Nat) (t : Nat) (r ct : List Nat) : List Nat :=
  magic ++ pk ++ nonceClientHalf t r ++ ct

/-- The EDNS trailer `'\x00\x00\x29\x04\xe4' + 6 * '\x00' + '\x80'` appended
to the packet encoding on line 335 of `query`. -/
def ednsTrailer : List Nat := [0, 0, 41, 4, 228, 0, 0, 0, 0, 0, 0, 128]

/-- The hard-coded prefix of the type-48 template on line 342 (`'\x124\x01...'`,
i.e. a literal 12-byte header). -/
def tmpl48Head : List Nat := [18, 52, 1, 0, 0, 1, 0, 0, 0, 0, 0, 1]

/-- The hard-coded suffix of the type-48 template on line 342. -/
def tmpl48Tail : List Nat :=
  [0, 0, 48, 0, 1, 0, 0, 41, 5, 0, 0, 0, 128, 0, 0, 0, 128]

/-- The `DnsPacket` constructed in `query` for the caller's question. -/
def queryPacket (rt : Nat) (labels : List (List Nat)) : DnsPacket :=
  DnsPacket.addQuestion ⟨freshHeader, [], []⟩ ⟨labels, rt, 1⟩

/-- Lines 335-342 of `query`: the plaintext that is sealed — packet encoding
plus trailer, overridden for `record_type == 48` by the fixed template with
the length-prefixed labels spliced in. -/
def buildQueryMessage (rt : Nat) (labels : List (List Nat)) : List Nat :=
  if rt = 48 then tmpl48Head ++ encodeLabels labels ++ tmpl48Tail
  else (queryPacket rt labels).toBinary ++ ednsTrailer

/-- `get_public_key`'s certificate-fetch packet and, generally, any packet the
engine builds: fresh header, questions added one by one. -/
def buildPacket (qs : List DnsQuestion) : DnsPacket :=
  qs.foldl DnsPacket.addQuestion ⟨freshHeader, [], []⟩

/-- Well-formedness used for the round-trip property: in-range header and
question fields, counts that match the record lists, nonempty labels of at
most 63 bytes. -/
def wfQuestion (q : DnsQuestion) : Prop :=
  q.qtype < 65536 ∧ q.qclass < 65536 ∧ ∀ l ∈ q.labels, l ≠ [] ∧ l.length ≤ 63

instance (q : DnsQuestion) : Decidable (wfQuestion q) := by
  unfold wfQuestion; infer_instance

def wfMessage (p : DnsPacket) : Prop :=
  p.header.id < 65536 ∧ p.header.bits < 65536 ∧
  p.header.qdCount = p.questions.length ∧ p.header.qdCount < 65536 ∧
  p.header.anCount = p.answers.length ∧
  p.header.nsCount < 65536 ∧ p.header.arCount < 65536 ∧
  ∀ q ∈ p.questions, wfQuestion q

instance (p : DnsPacket) : Decidable (wfMessage p) := by
  unfold wfMessage; infer_instance

/-- Spec's example candidates: serial 5 expired, serial 7 valid, serial 6
valid, evaluated at `now = 100`. -/
def cert5Expired : Certificate := ⟨[], [], 5, 0, 50⟩

def cert7Valid : Certificate := ⟨[], [], 7, 0, 200⟩

def cert6Valid : Certificate := ⟨[], [], 6, 0, 200⟩

/-- Two non-expired candidates with serials 5 and 7, the lower serial first. -/
def cert5Valid : Certificate := ⟨[], [], 5, 0, 200⟩

/-- Buffer for the pointer analysis: name "a" at offset 0, a pointer
`0xC0 0x00` to offset 0 at position 3, name "b" at offset 5. -/
def c1buf : List Nat := [1, 97, 0, 192, 0, 1, 98, 0]

/-- A message whose last answer declares `rdlength = 5` with only two bytes
remaining: header (anCount 1), root name, type 1, class 1, ttl 0. -/
def c6buf : List Nat :=
  [0, 0, 0, 0, 0, 0, 0, 1, 0, 0, 0, 0] ++ [0] ++ [0, 1] ++ [0, 1]
    ++ [0, 0, 0, 0] ++ [0, 5] ++ [1, 2]

/-- A count-consistent message with one answer record. -/
def c5msg : DnsPacket := ⟨⟨0, 0, 0, 1, 0, 0⟩, [], [[0]]⟩

/-- The spec's end-to-end example: id 0x1234, qdCount 1, one question
("example", "com") with qtype 1 and qclass 1 (and the engine's fixed
bits 0x0100 and arCount 1). -/
def exampleMsg : DnsPacket :=
  ⟨⟨0x1234, 0x0100, 1, 0, 0, 1⟩,
   [⟨[[101, 120, 97, 109, 112, 108, 101], [99, 111, 109]], 1, 1⟩], []⟩

example : readLabels [1, 97, 0, 192, 0, 1, 98, 0] 3 = some ([[98]], 5) := by decide
example : readLabels [1, 97, 0, 192, 0, 1, 98, 0] 0 = some ([[97]], 3) := by decide
example : readLabels [64, 0, 0] 0 = some ([], 2) := by decide
example : selectPhase [cert5Expired, cert7Valid, cert6Valid] 100 = Except.ok cert7Valid := by decide
example : selectPhase [cert5Valid, cert7Valid] 100 = Except.ok cert5Valid := by decide
example : fromBinary c6buf = some ⟨⟨0, 0, 0, 1, 0, 0⟩, [], [[1, 2]]⟩ := by decide
example : fromBinary (DnsPacket.toBinary c5msg) = none := by decide
example : hexChars 0 = [48] := by decide
example : (hexChars 268435456).length = 8 := by decide
example : queryCertPhase [] 0 = Except.error "Certificate expired." := by decide
example : findCertificates ([68, 78, 83, 67, 0, 1, 0, 0] ++ [9, 9]) = [[9, 9]] := by decide

lemma and192_eq_zero (n : Nat) (h : n < 64) : n &&& 192 = 0 := by
  interval_cases n <;> decide

lemma readBytes_at (pre mid rest : List Nat) (n : Nat) (h : mid.length = n) :
    readBytes (pre ++ (mid ++ rest)) pre.length n = (mid, pre.length + n) := by
  unfold readBytes
  rw [List.drop_left pre (mid ++ rest), ← h, List.take_left]

lemma unpackU8_at (pre : List Nat) (x : Nat) (rest : List Nat) :
    unpackU8 (pre ++ x :: rest) pre.length = some (x, pre.length + 1) := by
  unfold unpackU8
  rw [show pre ++ x :: rest = pre ++ ([x] ++ rest) by simp,
    readBytes_at pre [x] rest 1 rfl]

lemma unpackHH_at (pre : List Nat) (a b c d : Nat) (rest : List Nat) :
    unpackHH (pre ++ ([a, b, c, d] ++ rest)) pre.length
      = some (a * 256 + b, c * 256 + d, pre.length + 4) := by
  unfold unpackHH
  rw [readBytes_at pre [a, b, c, d] rest 4 rfl]

lemma compressionTest_of_le (n : Nat) (h : n ≤ 63) : compressionTest n = false := by
  unfold compressionTest
  rw [and192_eq_zero n (by omega)]
  decide

lemma encodeName_cons (l : List Nat) (ls : List (List Nat)) (rest : List Nat) :
    encodeName (l :: ls) ++ rest = l.length :: (l ++ (encodeName ls ++ rest)) := by
  simp [encodeName, encodeLabels]

lemma readLabelsAux_encode (ls : List (List Nat)) :
    ∀ (fuel : Nat) (pre rest : List Nat) (acc : List (List Nat)),
      (∀ l ∈ ls, l ≠ [] ∧ l.length ≤ 63) →
      ls.length < fuel →
      readLabelsAux (pre ++ (encodeName ls ++ rest)) fuel pre.length acc
        = some (acc.reverse ++ ls, pre.length + (encodeName ls).length) := by
  induction ls with
  | nil =>
    intro fuel pre rest acc _ hfuel
    obtain ⟨f, rfl⟩ : ∃ f, fuel = f + 1 := ⟨fuel - 1, by omega⟩
    have h0 : encodeName ([] : List (List Nat)) ++ rest = 0 :: rest := by
      simp [encodeName, encodeLabels]
    rw [h0]
    simp only [readLabelsAux, unpackU8_at pre 0 rest]
    simp [encodeName, encodeLabels]
  | cons l ls ih =>
    intro fuel pre rest acc hwf hfuel
    obtain ⟨f, rfl⟩ : ∃ f, fuel = f + 1 := ⟨fuel - 1, by omega⟩
    have hl : l ≠ [] ∧ l.length ≤ 63 := hwf l (by simp)
    rw [encodeName_cons]
    simp only [readLabelsAux, unpackU8_at pre l.length (l ++ (encodeName ls ++ rest))]
    have hne : ¬ (l.length = 0) := by
      intro h
      exact hl.1 (List.eq_nil_of_length_eq_zero h)
    rw [if_neg hne, compressionTest_of_le l.length hl.2]
    simp only [Bool.false_eq_true, if_false]
    have hsplit : pre ++ l.length :: (l ++ (encodeName ls ++ rest))
        = (pre ++ [l.length]) ++ (l ++ (encodeName ls ++ rest)) := by simp
    have hrb : readBytes (pre ++ l.length :: (l ++ (encodeName ls ++ rest)))
        (pre.length + 1) l.length = (l, pre.length + 1 + l.length) := by
      rw [hsplit, show pre.length + 1 = (pre ++ [l.length]).length by simp,
        readBytes_at (pre ++ [l.length]) l (encodeName ls ++ rest) l.length rfl]
    rw [hrb]
    have hsplit2 : pre ++ l.length :: (l ++ (encodeName ls ++ rest))
        = (pre ++ l.length :: l) ++ (encodeName ls ++ rest) := by simp
    have hpos : pre.length + 1 + l.length = (pre ++ l.length :: l).length := by simp; omega
    rw [hsplit2, hpos,
      ih f (pre ++ l.length :: l) rest (l :: acc)
        (fun x hx => hwf x (by simp [hx])) (by simp at hfuel ⊢; omega)]
    simp [encodeName, encodeLabels]
    omega

lemma encodeLabels_length_ge (ls : List (List Nat)) :
    ls.length ≤ (encodeLabels ls).length := by
  induction ls with
  | nil => simp [encodeLabels]
  | cons l ls ihl =>
    simp only [encodeLabels, List.length_append, List.length_cons]
    omega

lemma readLabels_encode (ls : List (List Nat)) (pre rest : List Nat)
    (hwf : ∀ l ∈ ls, l ≠ [] ∧ l.length ≤ 63) :
    readLabels (pre ++ (encodeName ls ++ rest)) pre.length
      = some (ls, pre.length + (encodeName ls).length) := by
  unfold readLabels
  have hge : ls.length ≤ (encodeName ls).length := by
    have := encodeLabels_length_ge ls
    simp [encodeName]
    omega
  have hfuel : ls.length < 2 * (pre ++ (encodeName ls ++ rest)).length + 2 := by
    simp [List.length_append] at *
    omega
  simpa using readLabelsAux_encode ls _ pre rest [] hwf hfuel

/-- Claim C1: on a message holding a name with a compression pointer to an
earlier valid name, `readLabels` does not decode the name at the pointed-to
offset: the source computes the 14-bit offset and never seeks to it, so it
decodes the labels physically following the pointer instead.  In `c1buf` the
pointer at position 3 encodes offset 0 (where the name is `["a"]`), yet the
decoder yields `["b"]` — while the final cursor, position 5, does match the
claim.  This evaluates the embedded code at the failing input. -/
theorem c1_offset_discarded :
    readLabels c1buf 3 = some ([[98]], 5)
    ∧ readLabels c1buf 0 = some ([[97]], 3)
    ∧ [[98]] ≠ ([[97]] : List (List Nat)) := by decide

/-- Claim C3 counterexample: the length byte 64 (top two bits `01`, not `11`)
is routed to the compression-pointer branch — `compressionTest 64` is true
though `64 &&& 192 ≠ 192` — and `readLabels` on `[64, 0, 0]` consequently
succeeds with no labels and cursor 2 (pointer behaviour) instead of treating
64 as a literal label length (which would overrun the 3-byte buffer). -/
theorem c3_counterexample :
    compressionTest 64 = true
    ∧ 64 &&& 192 ≠ 192
    ∧ readLabels [64, 0, 0] 0 = some ([], 2) := by decide

set_option maxRecDepth 4096 in
/-- Claim C3 (amended): a length byte is treated as a compression pointer iff
at least one of its top two bits is set, i.e. iff it is at least 64; every
length byte in 1..63 is treated as a literal label length and consumed as
such. -/
theorem c3_pointer_flag :
    (∀ b : Nat, b < 256 → (compressionTest b = true ↔ 64 ≤ b))
    ∧ (∀ (b : Nat) (label rest : List Nat), 1 ≤ b → b ≤ 63 → label.length = b →
        readLabels (b :: (label ++ 0 :: rest)) 0 = some ([label], b + 2)) := by
  constructor
  · have h : ∀ b : Fin 256, compressionTest b.val = true ↔ 64 ≤ b.val := by decide
    intro b hb
    exact h ⟨b, hb⟩
  · intro b label rest h1 h63 hlen
    have := readLabels_encode [label] [] rest
      (by intro l hl; simp at hl; subst hl; constructor
          · intro hnil; rw [hnil] at hlen; simp at hlen; omega
          · omega)
    simp only [List.nil_append, List.length_nil, Nat.zero_add] at this
    have hshape : encodeName [label] ++ rest = b :: (label ++ 0 :: rest) := by
      simp [encodeName, encodeLabels, hlen]
    rw [← hshape, this]
    simp [encodeName, encodeLabels, hlen]

/-- Witness for `c3_pointer_flag`. -/
theorem c3_pointer_flag_witness :
    compressionTest 200 = true
    ∧ readLabels [1, 97, 0] 0 = some ([[97]], 3) := by
  refine ⟨(c3_pointer_flag.1 200 (by decide)).mpr (by decide), ?_⟩
  have := c3_pointer_flag.2 1 [97] [] (by decide) (by decide) (by decide)
  simpa using this

/-- Claim C4 counterexample: with zero certificate candidates, the top-level
query certificate phase surfaces the error "Certificate expired." — the
`CertificateExpired` tag — and not a `NoCertificateFound`-tagged failure, so
the failure is reported under a different tag than its cause. -/
theorem c4_counterexample :
    queryCertPhase [] 0 = Except.error "Certificate expired."
    ∧ queryCertPhase [] 0 ≠ Except.error "No certificate received." := by decide

/-- Claim C4 (amended): when certificate discovery finds zero candidate blobs,
`get_public_key` itself fails with "No certificate received."
(NoCertificateFound), but `query` catches every `DnscryptException` from the
certificate phase and re-raises "Certificate expired.", so at the query level
the failure is surfaced under the CertificateExpired tag. -/
theorem c4_error_retag (resp : List Nat) (now : Nat)
    (h : findCertificates resp = []) :
    getPublicKeySelect resp now = Except.error "No certificate received."
    ∧ queryCertPhase resp now = Except.error "Certificate expired." := by
  constructor
  · simp [getPublicKeySelect, h, selectPhase]
  · simp [queryCertPhase, getPublicKeySelect, h, selectPhase]

/-- Witness for `c4_error_retag`. -/
theorem c4_error_retag_witness :
    getPublicKeySelect [1, 2, 3] 7 = Except.error "No certificate received."
    ∧ queryCertPhase [1, 2, 3] 7 = Except.error "Certificate expired." :=
  c4_error_retag [1, 2, 3] 7 (by decide)

lemma pyMaxBy_eq (key : Certificate → Bool) :
    ∀ (cs : List Certificate) (acc : Certificate),
      pyMaxBy key acc cs = if key acc then acc else ((cs.find? key).getD acc) := by
  intro cs
  induction cs with
  | nil => intro acc; simp [pyMaxBy]
  | cons x xs ih =>
    intro acc
    simp only [pyMaxBy]
    cases hacc : key acc <;> cases hx : key x <;>
      simp [boolVal, hacc, hx, ih, List.find?]

/-- Claim C2 counterexample: with two valid candidates of serials 5 and 7 (the
lower serial first), selection returns the serial-5 certificate, not the valid
candidate with the highest serial — the `max` key `x.serial and not
x.expired()` collapses to a boolean, so the first valid candidate wins. -/
theorem c2_counterexample :
    selectPhase [cert5Valid, cert7Valid] 100 = Except.ok cert5Valid
    ∧ cert5Valid.serial = 5
    ∧ cert7Valid.serial = 7
    ∧ cert7Valid.expired 100 = false
    ∧ cert5Valid.serial < cert7Valid.serial := by decide

/-- Claim C2 (amended): selection returns the first candidate whose serial is
nonzero and which is not expired, and the first candidate outright when no
such candidate exists; the chosen certificate is then rejected with
"Certificate expired." when it is expired.  In particular the spec's example
`[5 (expired), 7 (valid), 6 (valid)]` does yield serial 7, and when every
candidate is expired selection fails with "Certificate expired.". -/
theorem c2_selection :
    (∀ (c : Certificate) (cs : List Certificate) (now : Nat),
        selectCert c cs now
          = if certKey c now then c else ((cs.find? (fun x => certKey x now)).getD c))
    ∧ selectPhase [cert5Expired, cert7Valid, cert6Valid] 100 = Except.ok cert7Valid
    ∧ cert7Valid.serial = 7
    ∧ (∀ (c : Certificate) (cs : List Certificate) (now : Nat),
        (∀ x ∈ c :: cs, x.expired now = true) →
        selectPhase (c :: cs) now = Except.error "Certificate expired.") := by
  refine ⟨fun c cs now => pyMaxBy_eq _ cs c, by decide, by decide, ?_⟩
  intro c cs now hall
  have hkey : ∀ x ∈ c :: cs, certKey x now = false := by
    intro x hx
    unfold certKey
    rw [hall x hx]
    simp
  have hsel : selectCert c cs now = c := by
    rw [selectCert, pyMaxBy_eq]
    rw [hkey c (by simp)]
    have : cs.find? (fun x => certKey x now) = none := by
      rw [List.find?_eq_none]
      intro x hx
      simp [hkey x (by simp [hx])]
    simp [this]
  simp [selectPhase, hsel, hall c (by simp)]

/-- Witness for `c2_selection`. -/
theorem c2_selection_witness :
    selectCert cert5Expired [] 100 = cert5Expired
    ∧ selectPhase [cert5Expired] 100 = Except.error "Certificate expired." := by
  constructor
  · rw [c2_selection.1 cert5Expired [] 100]
    decide
  · exact c2_selection.2.2.2 cert5Expired [] 100 (by decide)

/-- Claim C7: response validation in `query` checks the 8-byte magic first
(failing with "Invalid magic query received." whatever the open primitive
would do), then the 12-byte client-nonce echo (failing with "Invalid nonce
received." even when the ciphertext would open), and only with both checks
passed does the result depend on the authenticated open, which is fed the
ciphertext after offset 32 and the echoed client nonce plus server nonce. -/
theorem c7_validation_order (response nonce : List Nat) :
    (response.take 8 ≠ responseMagic →
      ∀ f g : List Nat → List Nat → Option (List Nat),
        validateResponse response nonce f = Except.error "Invalid magic query received."
        ∧ validateResponse response nonce f = validateResponse response nonce g)
    ∧ (response.take 8 = responseMagic → (response.drop 8).take 12 ≠ nonce →
      ∀ f g : List Nat → List Nat → Option (List Nat),
        validateResponse response nonce f = Except.error "Invalid nonce received."
        ∧ validateResponse response nonce f = validateResponse response nonce g)
    ∧ (response.take 8 = responseMagic → (response.drop 8).take 12 = nonce →
      ∀ f : List Nat → List Nat → Option (List Nat),
        validateResponse response nonce f
          = match f (response.drop 32)
              ((response.drop 8).take 12 ++ (response.drop 20).take 12) with
            | none => Except.error "Message decoding error."
            | some m => Except.ok m) := by
  refine ⟨?_, ?_, ?_⟩
  · intro h f g
    constructor <;> simp [validateResponse, h]
  · intro h1 h2 f g
    constructor <;> simp [validateResponse, h1, h2]
  · intro h1 h2 f
    simp [validateResponse, h1, h2]

/-- Witness for `c7_validation_order`. -/
theorem c7_validation_order_witness :
    validateResponse [0] [] (fun _ _ => some []) = Except.error "Invalid magic query received."
    ∧ validateResponse responseMagic [1] (fun _ _ => some [])
        = Except.error "Invalid nonce received."
    ∧ validateResponse responseMagic [] (fun _ _ => some [7]) = Except.ok [7] := by
  refine ⟨((c7_validation_order [0] []).1 (by decide) _ (fun _ _ => none)).1,
    ((c7_validation_order responseMagic [1]).2.1 (by decide) (by decide) _
      (fun _ _ => none)).1, ?_⟩
  have h := (c7_validation_order responseMagic []).2.2 (by decide) (by decide)
    (fun _ _ => some [7])
  simpa using h

lemma foldl_addQuestion (qs : List DnsQuestion) :
    ∀ (p : DnsPacket),
      qs.foldl DnsPacket.addQuestion p
        = ⟨⟨p.header.id, p.header.bits, p.header.qdCount + qs.length,
            p.header.anCount, p.header.nsCount, p.header.arCount⟩,
           p.questions ++ qs, p.answers⟩ := by
  induction qs with
  | nil =>
    intro p
    obtain ⟨⟨i, b, qd, an, ns, ar⟩, pq, pa⟩ := p
    simp
  | cons q qs ih =>
    intro p
    rw [List.foldl_cons, ih (p.addQuestion q)]
    simp [DnsPacket.addQuestion]
    omega

/-- Claim C9 counterexample: the certificate-fetch query (fresh header, one
question) encodes `arCount = 1` in header bytes 10..11, yet not a single byte
— in particular no additional record — follows the question section of its
encoding, so the additional-records count does not equal the number of
additional records emitted. -/
theorem c9_counterexample :
    (buildPacket [⟨[[97]], 16, 1⟩]).header.arCount = 1
    ∧ (((buildPacket [⟨[[97]], 16, 1⟩]).toBinary).drop 10).take 2 = [0, 1]
    ∧ ((buildPacket [⟨[[97]], 16, 1⟩]).toBinary).drop
        (12 + (questionsToBinary (buildPacket [⟨[[97]], 16, 1⟩]).questions).length)
        = [] := by decide

/-- Claim C9 (amended): for every packet built by adding questions one by one
to a fresh header, the question count equals the number of questions encoded,
the answer and authority counts are 0 and no such records are encoded, but the
additional-records count is the constant 1 while `toBinary` emits the header
and the questions and nothing else (the 12-byte EDNS pseudo-record is spliced
in after encoding only on the encrypted-query path, not in the
certificate-fetch query). -/
theorem c9_counts (qs : List DnsQuestion) :
    (buildPacket qs).header.qdCount = qs.length
    ∧ (buildPacket qs).questions = qs
    ∧ (buildPacket qs).header.anCount = 0
    ∧ (buildPacket qs).header.nsCount = 0
    ∧ (buildPacket qs).header.arCount = 1
    ∧ (buildPacket qs).toBinary = (buildPacket qs).header.toBinary ++ questionsToBinary qs
    ∧ ((buildPacket qs).toBinary).length = 12 + (questionsToBinary qs).length := by
  have h := foldl_addQuestion qs ⟨freshHeader, [], []⟩
  unfold buildPacket
  rw [h]
  refine ⟨by simp [freshHeader], by simp, by simp [freshHeader], by simp [freshHeader],
    by simp [freshHeader], by simp [DnsPacket.toBinary], ?_⟩
  simp only [DnsPacket.toBinary, DnsHeader.toBinary, u16be, List.length_append,
    List.nil_append, List.length_cons, List.length_nil]

lemma hexCharsAux_length_pos (fuel n : Nat) (h : n < fuel) :
    0 < (hexCharsAux fuel n).length := by
  obtain ⟨f, rfl⟩ : ∃ f, fuel = f + 1 := ⟨fuel - 1, by omega⟩
  simp only [hexCharsAux]
  split <;> simp

lemma hexCharsAux_length_iff :
    ∀ (k n fuel : Nat), n < fuel →
      ((hexCharsAux fuel n).length = k + 1
        ↔ (n < 16 ^ (k + 1) ∧ (k = 0 ∨ 16 ^ k ≤ n))) := by
  intro k
  induction k with
  | zero =>
    intro n fuel h
    obtain ⟨f, rfl⟩ : ∃ f, fuel = f + 1 := ⟨fuel - 1, by omega⟩
    simp only [hexCharsAux]
    by_cases hn : n < 16
    · simp [hn]
    · rw [if_neg hn]
      simp only [List.length_append, List.length_cons, List.length_nil]
      have hpos := hexCharsAux_length_pos f (n / 16)
        (by have := Nat.div_lt_self (show 0 < n by omega) (show 1 < 16 by omega); omega)
      constructor
      · intro hh; omega
      · intro hh; rw [pow_one] at hh; omega
  | succ k ih =>
    intro n fuel h
    obtain ⟨f, rfl⟩ : ∃ f, fuel = f + 1 := ⟨fuel - 1, by omega⟩
    simp only [hexCharsAux]
    by_cases hn : n < 16
    · rw [if_pos hn]
      simp only [List.length_cons, List.length_nil]
      constructor
      · intro hh; omega
      · rintro ⟨h1, h2 | h2⟩
        · omega
        · have h16 : (16 : Nat) ≤ 16 ^ (k + 1) := Nat.le_self_pow (by omega) 16
          omega
    · rw [if_neg hn]
      simp only [List.length_append, List.length_cons, List.length_nil]
      have hdiv : n / 16 < f := by
        have := Nat.div_lt_self (show 0 < n by omega) (show 1 < 16 by omega)
        omega
      have hiter := ih (n / 16) f hdiv
      constructor
      · intro hh
        have hx := hiter.mp (by omega)
        refine ⟨?_, Or.inr ?_⟩
        · have := (Nat.div_lt_iff_lt_mul (show 0 < 16 by omega)).mp hx.1
          calc n < 16 ^ (k + 1) * 16 := this
            _ = 16 ^ (k + 2) := by rw [← pow_succ]
        · rcases hx.2 with hk | hk
          · subst hk; rw [pow_one]; omega
          · have := (Nat.le_div_iff_mul_le (show 0 < 16 by omega)).mp hk
            calc 16 ^ (k + 1) = 16 ^ k * 16 := by rw [pow_succ]
              _ ≤ n := this
      · rintro ⟨h1, h2⟩
        have h2' : 16 ^ (k + 1) ≤ n := by
          rcases h2 with h2 | h2
          · omega
          · exact h2
        have hlen : (hexCharsAux f (n / 16)).length = k + 1 := by
          apply hiter.mpr
          refine ⟨?_, ?_⟩
          · apply (Nat.div_lt_iff_lt_mul (show 0 < 16 by omega)).mpr
            calc n < 16 ^ (k + 2) := h1
              _ = 16 ^ (k + 1) * 16 := by rw [← pow_succ]
          · rcases k with _ | k'
            · exact Or.inl rfl
            · refine Or.inr ((Nat.le_div_iff_mul_le (show 0 < 16 by omega)).mpr ?_)
              calc 16 ^ (k' + 1) * 16 = 16 ^ (k' + 2) := by rw [← pow_succ]
                _ ≤ n := h2'
        omega

lemma hexChars_length_eight (t : Nat) :
    (hexChars t).length = 8 ↔ (2 ^ 28 ≤ t ∧ t < 2 ^ 32) := by
  unfold hexChars
  have h := hexCharsAux_length_iff 7 t (t + 1) (by omega)
  rw [show (8 : Nat) = 7 + 1 from rfl, h]
  norm_num
  omega

/-- Claim C8 counterexample: the client nonce half is not padded or truncated
to 12 bytes — at unix time 0 the hex rendering is the single character "0",
so with the four random hex characters the client half is 5 bytes long. -/
theorem c8_counterexample :
    (nonceClientHalf 0 [48, 49, 50, 51]).length = 5 ∧ (5 : Nat) ≠ 12 := by decide

/-- Claim C8 (amended): the client nonce half is the unpadded hex rendering of
the unix time followed by four random hex characters; its length is 12 exactly
when the unix time lies in [2^28, 2^32) (mid-1978 through early 2106), and in
that range the framed datagram `magic(8) ++ pk(32) ++ nonce(12) ++ ciphertext`
has its fields at the stated offsets. -/
theorem c8_nonce_length (t : Nat) (r : List Nat) (hr : r.length = 4) :
    ((nonceClientHalf t r).length = 12 ↔ (2 ^ 28 ≤ t ∧ t < 2 ^ 32))
    ∧ (∀ magic pk ct : List Nat, magic.length = 8 → pk.length = 32 →
        2 ^ 28 ≤ t → t < 2 ^ 32 →
        (queryDatagram magic pk t r ct).take 8 = magic
        ∧ ((queryDatagram magic pk t r ct).drop 8).take 32 = pk
        ∧ ((queryDatagram magic pk t r ct).drop 40).take 12 = nonceClientHalf t r
        ∧ (queryDatagram magic pk t r ct).drop 52 = ct) := by
  have hnl : (nonceClientHalf t r).length = (hexChars t).length + 4 := by
    simp [nonceClientHalf, hr]
  constructor
  · constructor
    · intro hh
      exact (hexChars_length_eight t).mp (by omega)
    · intro hh
      have := (hexChars_length_eight t).mpr hh
      omega
  · intro magic pk ct hm hp h1 h2
    have hn12 : (nonceClientHalf t r).length = 12 := by
      have := (hexChars_length_eight t).mpr ⟨h1, h2⟩
      omega
    have hshape : queryDatagram magic pk t r ct
        = magic ++ (pk ++ (nonceClientHalf t r ++ ct)) := by
      simp [queryDatagram]
    refine ⟨?_, ?_, ?_, ?_⟩
    · rw [hshape, List.take_left' hm]
    · rw [hshape, List.drop_left' hm, List.take_left' hp]
    · rw [show queryDatagram magic pk t r ct
          = (magic ++ pk) ++ (nonceClientHalf t r ++ ct) by simp [queryDatagram],
        List.drop_left' (by simp [hm, hp]), List.take_left' hn12]
    · rw [show queryDatagram magic pk t r ct
          = ((magic ++ pk) ++ nonceClientHalf t r) ++ ct by simp [queryDatagram],
        List.drop_left' (by simp [hm, hp, hn12])]

/-- Witness for `c8_nonce_length`. -/
theorem c8_nonce_length_witness :
    (nonceClientHalf 268435456 [48, 48, 48, 48]).length = 12
    ∧ (queryDatagram responseMagic (List.replicate 32 0) 268435456
        [48, 48, 48, 48] [9]).drop 52 = [9] := by
  have h := c8_nonce_length 268435456 [48, 48, 48, 48] rfl
  exact ⟨h.1.mpr (by norm_num),
    (h.2 responseMagic (List.replicate 32 0) [9] (by decide) (by simp)
      (by norm_num) (by norm_num)).2.2.2⟩

lemma readLabelsAux_overrun (pre tail : List Nat) (b : Nat) (f : Nat)
    (acc : List (List Nat)) (h1 : 1 ≤ b) (h63 : b ≤ 63) (hlen : tail.length < b) :
    readLabelsAux (pre ++ b :: tail) (f + 2) pre.length acc = none := by
  rw [show f + 2 = (f + 1) + 1 from rfl]
  simp only [readLabelsAux, unpackU8_at pre b tail]
  rw [if_neg (by omega), compressionTest_of_le b h63]
  simp only [Bool.false_eq_true, if_false]
  have hrb : readBytes (pre ++ b :: tail) (pre.length + 1) b
      = (tail, pre.length + 1 + tail.length) := by
    unfold readBytes
    rw [show pre ++ b :: tail = (pre ++ [b]) ++ tail by simp,
      show pre.length + 1 = (pre ++ [b]).length by simp,
      List.drop_left, List.take_of_length_le (by omega)]
  rw [hrb]
  have hend : unpackU8 (pre ++ b :: tail) (pre.length + 1 + tail.length) = none := by
    unfold unpackU8 readBytes
    rw [show pre.length + 1 + tail.length = (pre ++ b :: tail).length by simp; omega,
      List.drop_length]
    rfl
  simp only [readLabelsAux, hend]

lemma readLabels_overrun (pre tail : List Nat) (b : Nat)
    (h1 : 1 ≤ b) (h63 : b ≤ 63) (hlen : tail.length < b) :
    readLabels (pre ++ b :: tail) pre.length = none := by
  unfold readLabels
  exact readLabelsAux_overrun pre tail b (2 * (pre ++ b :: tail).length) [] h1 h63 hlen

lemma readLabels_zero (x : List Nat) : readLabels (0 :: x) 0 = some ([], 1) := by
  unfold readLabels
  rw [show 2 * (0 :: x).length + 2 = (2 * (0 :: x).length + 1) + 1 from rfl]
  have h0 : unpackU8 (0 :: x) 0 = some (0, 1) := by
    have := unpackU8_at [] 0 x
    simpa using this
  simp only [readLabelsAux, h0]
  rfl

lemma readAnswer_truncation (rdata : List Nat) (n : Nat) (hlt : rdata.length < n) :
    readAnswer ([0, 0, 1, 0, 1, 0, 0, 0, 0] ++ (u16be n ++ rdata)) 0
      = some (rdata, 11 + rdata.length) := by
  have hbuf : [0, 0, 1, 0, 1, 0, 0, 0, 0] ++ (u16be n ++ rdata)
      = 0 :: ([0, 1, 0, 1, 0, 0, 0, 0, n / 256, n % 256] ++ rdata) := by
    simp [u16be]
  have hrr : unpackRR (0 :: ([0, 1, 0, 1, 0, 0, 0, 0, n / 256, n % 256] ++ rdata)) 1
      = some (1, 1, 0, n, 11) := by
    unfold unpackRR
    have := readBytes_at [0] [0, 1, 0, 1, 0, 0, 0, 0, n / 256, n % 256] rdata 10 rfl
    simp only [List.singleton_append, List.length_cons, List.length_nil] at this
    rw [this]
    have hn : (n / 256) * 256 + n % 256 = n := by omega
    simp [i32ofBytes, hn]
  have hrb : readBytes (0 :: ([0, 1, 0, 1, 0, 0, 0, 0, n / 256, n % 256] ++ rdata)) 11 n
      = (rdata, 11 + rdata.length) := by
    unfold readBytes
    have hshape : 0 :: ([0, 1, 0, 1, 0, 0, 0, 0, n / 256, n % 256] ++ rdata)
        = [0, 0, 1, 0, 1, 0, 0, 0, 0, n / 256, n % 256] ++ rdata := by simp
    rw [hshape, List.drop_left' (by rfl), List.take_of_length_le (by omega)]
  simp only [readAnswer, hbuf, readLabels_zero, hrr, hrb]

/-- Claim C6 counterexample: `c6buf` declares `rdlength = 5` for its only
answer while just two bytes remain; decoding does not fail — it returns a
message whose answer rdata is the silently truncated 2-byte remainder. -/
theorem c6_counterexample :
    fromBinary c6buf = some ⟨⟨0, 0, 0, 1, 0, 0⟩, [], [[1, 2]]⟩
    ∧ (c6buf.drop 21).take 2 = [0, 5]
    ∧ (c6buf.drop 23).length = 2 := by decide

/-- Claim C6 (amended): a label-length byte that implies a read past the end
of the buffer does make decoding fail (the truncated label read leaves the
cursor at the end, so the next `struct.unpack('B')` raises — an unpack error,
not a tagged MalformedMessage); but a declared record length (`rdlength`) past
the end of the buffer is silently truncated: the answer parses successfully
with rdata equal to the bytes that remain. -/
theorem c6_overrun :
    (∀ (pre tail : List Nat) (b : Nat), 1 ≤ b → b ≤ 63 → tail.length < b →
      readLabels (pre ++ b :: tail) pre.length = none)
    ∧ (∀ (rdata : List Nat) (n : Nat), rdata.length < n →
      readAnswer ([0, 0, 1, 0, 1, 0, 0, 0, 0] ++ (u16be n ++ rdata)) 0
        = some (rdata, 11 + rdata.length)) :=
  ⟨fun pre tail b h1 h63 hlen => readLabels_overrun pre tail b h1 h63 hlen,
   fun rdata n hlt => readAnswer_truncation rdata n hlt⟩

/-- Witness for `c6_overrun`. -/
theorem c6_overrun_witness :
    readLabels [5, 1, 2] 0 = none
    ∧ readAnswer ([0, 0, 1, 0, 1, 0, 0, 0, 0] ++ (u16be 5 ++ [1, 2])) 0
        = some ([1, 2], 13) := by
  constructor
  · have := c6_overrun.1 [] [1, 2] 5 (by decide) (by decide) (by decide)
    simpa using this
  · exact c6_overrun.2 [1, 2] 5 (by decide)

lemma header_toBinary_length (h : DnsHeader) : h.toBinary.length = 12 := by
  simp [DnsHeader.toBinary, u16be]

lemma headerFromBinary_encode (h : DnsHeader) (rest : List Nat) :
    headerFromBinary (h.toBinary ++ rest) 0 = some (h, 12) := by
  obtain ⟨i, b, qd, an, ns, ar⟩ := h
  unfold headerFromBinary
  have hsh : DnsHeader.toBinary ⟨i, b, qd, an, ns, ar⟩ ++ rest
      = [i / 256, i % 256, b / 256, b % 256, qd / 256, qd % 256, an / 256, an % 256,
         ns / 256, ns % 256, ar / 256, ar % 256] ++ rest := by
    simp [DnsHeader.toBinary, u16be]
  rw [hsh]
  have hr := readBytes_at []
    [i / 256, i % 256, b / 256, b % 256, qd / 256, qd % 256, an / 256, an % 256,
     ns / 256, ns % 256, ar / 256, ar % 256] rest 12 rfl
  simp only [List.nil_append, List.length_nil, Nat.zero_add] at hr
  rw [hr]
  have h1 : (i / 256) * 256 + i % 256 = i := by omega
  have h2 : (b / 256) * 256 + b % 256 = b := by omega
  have h3 : (qd / 256) * 256 + qd % 256 = qd := by omega
  have h4 : (an / 256) * 256 + an % 256 = an := by omega
  have h5 : (ns / 256) * 256 + ns % 256 = ns := by omega
  have h6 : (ar / 256) * 256 + ar % 256 = ar := by omega
  simp [h1, h2, h3, h4, h5, h6]

lemma readQuestions_encode (qs : List DnsQuestion) :
    ∀ (pre rest : List Nat),
      (∀ q ∈ qs, wfQuestion q) →
      readQuestions (pre ++ (questionsToBinary qs ++ rest)) qs.length pre.length
        = some (qs, pre.length + (questionsToBinary qs).length) := by
  induction qs with
  | nil =>
    intro pre rest _
    simp [readQuestions, questionsToBinary]
  | cons q qs ih =>
    intro pre rest hwf
    have hq := hwf q (by simp)
    obtain ⟨hqt, hqc, hlab⟩ := hq
    rw [List.length_cons]
    simp only [readQuestions]
    have hshape1 : pre ++ (questionsToBinary (q :: qs) ++ rest)
        = pre ++ (encodeName q.labels
            ++ (u16be q.qtype ++ u16be q.qclass ++ (questionsToBinary qs ++ rest))) := by
      simp [questionsToBinary, DnsQuestion.toBinary]
    have hlabels := readLabels_encode q.labels pre
      (u16be q.qtype ++ u16be q.qclass ++ (questionsToBinary qs ++ rest)) hlab
    have hq1 : readQuestion (pre ++ (questionsToBinary (q :: qs) ++ rest)) pre.length
        = some (q, pre.length + (q.toBinary).length) := by
      unfold readQuestion
      rw [hshape1, hlabels]
      have hshape2 : pre ++ (encodeName q.labels
            ++ (u16be q.qtype ++ u16be q.qclass ++ (questionsToBinary qs ++ rest)))
          = (pre ++ encodeName q.labels)
            ++ ([q.qtype / 256, q.qtype % 256, q.qclass / 256, q.qclass % 256]
                ++ (questionsToBinary qs ++ rest)) := by
        simp [u16be]
      have hpos : pre.length + (encodeName q.labels).length
          = (pre ++ encodeName q.labels).length := by
        simp
      have hHH := unpackHH_at (pre ++ encodeName q.labels)
        (q.qtype / 256) (q.qtype % 256) (q.qclass / 256) (q.qclass % 256)
        (questionsToBinary qs ++ rest)
      have e1 : (q.qtype / 256) * 256 + q.qtype % 256 = q.qtype := by omega
      have e2 : (q.qclass / 256) * 256 + q.qclass % 256 = q.qclass := by omega
      have e3 : (pre ++ encodeName q.labels).length + 4
          = pre.length + (q.toBinary).length := by
        simp [DnsQuestion.toBinary, u16be]
        omega
      simp only [hlabels, hpos]
      rw [hshape2]
      simp only [hHH, e1, e2, e3]
    simp only [hq1]
    have hshape3 : pre ++ (questionsToBinary (q :: qs) ++ rest)
        = (pre ++ q.toBinary) ++ (questionsToBinary qs ++ rest) := by
      simp [questionsToBinary]
    have hpos2 : pre.length + (q.toBinary).length = (pre ++ q.toBinary).length := by
      simp
    rw [hshape3, hpos2, ih (pre ++ q.toBinary) rest (fun x hx => hwf x (by simp [hx]))]
    have : (pre ++ q.toBinary).length + (questionsToBinary qs).length
        = pre.length + (questionsToBinary (q :: qs)).length := by
      simp [questionsToBinary]
      omega
    rw [this]

/-- Claim C5 counterexample: `c5msg` is count-consistent (anCount 1 matches
its single answer, qdCount 0 its zero questions; it has no labels at all so
the claim's label bounds hold vacuously), yet decoding its encoding yields a
failure, not the message back: `toBinary` never emits answers, so the decoder
runs out of bytes reading the declared answer. -/
theorem c5_counterexample :
    fromBinary (DnsPacket.toBinary c5msg) = none
    ∧ c5msg.header.anCount = c5msg.answers.length
    ∧ c5msg.header.qdCount = c5msg.questions.length := by decide

/-- Claim C5 (amended): restricted to messages without answer records (the
encoder serialises only header and questions), the round trip holds: for
every message with in-range header and question fields, question count equal
to the number of questions, no answers, and nonempty labels of at most 63
bytes, decoding the encoding returns exactly the message.  The spec's
concrete end-to-end example is such a message. -/
theorem c5_roundtrip (p : DnsPacket) (hwf : wfMessage p) (hans : p.answers = []) :
    fromBinary p.toBinary = some p := by
  obtain ⟨⟨i, b, qd, an, ns, ar⟩, qs, ans⟩ := p
  obtain ⟨hid, hbits, hqd, hqd16, han, hns, har, hq⟩ := hwf
  simp only at hid hbits hqd hqd16 han hns har hq hans
  subst hans
  simp only [List.length_nil] at han
  subst han
  subst hqd
  have hb : DnsPacket.toBinary ⟨⟨i, b, qs.length, 0, ns, ar⟩, qs, []⟩
      = DnsHeader.toBinary ⟨i, b, qs.length, 0, ns, ar⟩ ++ questionsToBinary qs := rfl
  have hhdr : headerFromBinary (DnsPacket.toBinary ⟨⟨i, b, qs.length, 0, ns, ar⟩, qs, []⟩) 0
      = some (⟨i, b, qs.length, 0, ns, ar⟩, 12) := by
    rw [hb]
    exact headerFromBinary_encode _ _
  have hqe : readQuestions (DnsPacket.toBinary ⟨⟨i, b, qs.length, 0, ns, ar⟩, qs, []⟩)
      qs.length 12 = some (qs, 12 + (questionsToBinary qs).length) := by
    rw [hb]
    have := readQuestions_encode qs (DnsHeader.toBinary ⟨i, b, qs.length, 0, ns, ar⟩) [] hq
    simp only [List.append_nil, header_toBinary_length] at this
    exact this
  unfold fromBinary
  simp only [hhdr, hqe, readAnswers]

/-- Witness for `c5_roundtrip`: the spec's end-to-end example. -/
theorem c5_roundtrip_witness :
    fromBinary (DnsPacket.toBinary exampleMsg) = some exampleMsg :=
  c5_roundtrip exampleMsg (by decide) rfl

/-- Claim C10: for `record_type = 48` the sealed plaintext is the hard-coded
byte template with the question's length-prefixed labels spliced in — and it
differs from the constructed packet's encoding followed by the standard
trailer (the two EDNS tails differ byte-for-byte); for every other record
type the plaintext is the packet's binary encoding followed by the fixed
12-byte trailer.  The label bound mirrors the `assert len(label) <= 63`
under which the source's encoding is defined. -/
theorem c10_plaintext (labels : List (List Nat)) (_h : ∀ l ∈ labels, l.length ≤ 63) :
    buildQueryMessage 48 labels = tmpl48Head ++ encodeLabels labels ++ tmpl48Tail
    ∧ buildQueryMessage 48 labels ≠ (queryPacket 48 labels).toBinary ++ ednsTrailer
    ∧ ∀ rt : Nat, rt ≠ 48 →
        buildQueryMessage rt labels = (queryPacket rt labels).toBinary ++ ednsTrailer
        ∧ ednsTrailer.length = 12 := by
  have h48 : (queryPacket 48 labels).toBinary
      = tmpl48Head ++ (encodeLabels labels ++ [0, 0, 48, 0, 1]) := by
    have hq : (queryPacket 48 labels).toBinary
        = DnsHeader.toBinary ⟨0x1234, 0x0100, 1, 0, 0, 1⟩
          ++ (encodeName labels ++ [0, 48, 0, 1]) := by
      simp [queryPacket, DnsPacket.addQuestion, DnsPacket.toBinary,
        DnsQuestion.toBinary, questionsToBinary, u16be, freshHeader]
    have hh : DnsHeader.toBinary ⟨0x1234, 0x0100, 1, 0, 0, 1⟩ = tmpl48Head := by
      simp [DnsHeader.toBinary, u16be, tmpl48Head]
    rw [hq, hh]
    simp [encodeName]
  refine ⟨by simp [buildQueryMessage], ?_, ?_⟩
  · intro heq
    rw [buildQueryMessage, if_pos rfl, h48] at heq
    have heq2 : (tmpl48Head ++ encodeLabels labels) ++ tmpl48Tail
        = (tmpl48Head ++ encodeLabels labels) ++ ([0, 0, 48, 0, 1] ++ ednsTrailer) := by
      simpa [List.append_assoc] using heq
    have hc := List.append_cancel_left heq2
    exact absurd hc (by decide)
  · intro rt hrt
    exact ⟨by simp [buildQueryMessage, if_neg hrt], rfl⟩

/-- Witness for `c10_plaintext`. -/
theorem c10_plaintext_witness :
    buildQueryMessage 48 [[101]] = tmpl48Head ++ encodeLabels [[101]] ++ tmpl48Tail
    ∧ buildQueryMessage 1 [[101]] = (queryPacket 1 [[101]]).toBinary ++ ednsTrailer := by
  have h := c10_plaintext [[101]] (by decide)
  exact ⟨h.1, (h.2.2 1 (by decide)).1⟩

end Dnscrypt
